import Mathlib

/-!
Verification of the SlizzAi-3 pipeline core (src/SlizzAi-3.6.py) against its
natural-language specification.

The embedding translates the three algorithmic components and the production
loop of `SlizzAi-3.6.py` into Lean:

* `FrameScheduler` (lines 43-61): Fibonacci-pair UV tile coordinate generator.
* `GoldenRatioCompressor` (lines 66-80): fixed-point int16 quantization codec;
  machine floats are modelled by exact rationals, the Python double value of
  `PHI = (1 + 5**0.5) / 2` is embedded as the exact rational it denotes, and
  the `astype(np.int16)` cast is modelled as two's-complement wrapping,
  which is what the cast performs on out-of-range values.
* `ResourceManager` (lines 105-143): water-budget ledger; the sampled
  temperature is a parameter (`Option` models sensor availability, `none`
  triggering the code's constant 35 degree fallback).
* `run_pipeline` (lines 160-199): the sequential tile loop, with the external
  geometry source (`np.random.rand`) and the per-tile sensor readings as
  explicit parameters, and file-system writes modelled as an ordered list of
  written file names.
-/

namespace SlizzAi

/-! ### FrameScheduler (SlizzAi-3.6.py lines 43-61) -/

/-- State of the Da Vinci Fibonacci frame scheduler: `self.prev`, `self.cur`
and `self.modulus`. -/
structure FrameScheduler where
  prev : ℕ
  cur : ℕ
  modulus : ℕ
  deriving DecidableEq, Repr

/-- Constructor `FrameScheduler.__init__`: `self.prev, self.cur = 0, 1`. -/
def FrameScheduler.init (modulus : ℕ) : FrameScheduler :=
  { prev := 0, cur := 1, modulus := modulus }

/-- Method `FrameScheduler.next_tile_uv`: returns the emitted `(u, v)` pair together
with the updated scheduler state.
Source:
  `fib_n = self.cur`
  `self.prev, self.cur = self.cur, (self.prev + self.cur) % self.modulus`
  `u = (fib_n % self.modulus) / self.modulus`
  `v = (self.cur % self.modulus) / self.modulus` -/
def FrameScheduler.next_tile_uv (s : FrameScheduler) : (ℚ × ℚ) × FrameScheduler :=
  let fib_n := s.cur
  let cur' := (s.prev + s.cur) % s.modulus
  ((((fib_n % s.modulus : ℕ) : ℚ) / (s.modulus : ℚ),
    ((cur' % s.modulus : ℕ) : ℚ) / (s.modulus : ℚ)),
   { prev := s.cur, cur := cur', modulus := s.modulus })

/-- Method `FrameScheduler.reset`: `self.prev, self.cur = 0, 1`. -/
def FrameScheduler.reset (s : FrameScheduler) : FrameScheduler :=
  { prev := 0, cur := 1, modulus := s.modulus }

/-- The scheduler state after `n` calls to `next_tile_uv` starting from a
freshly initialised scheduler with the given modulus. -/
def stateN (modulus : ℕ) : ℕ → FrameScheduler
  | 0 => FrameScheduler.init modulus
  | n + 1 => ((stateN modulus n).next_tile_uv).2

/-- The `(u, v)` pair returned by call number `n + 1` (zero-based index `n`)
on a freshly initialised scheduler. -/
def uvCall (modulus : ℕ) (n : ℕ) : ℚ × ℚ :=
  ((stateN modulus n).next_tile_uv).1

/-- The sequence of pairs emitted by `n` successive calls to `next_tile_uv`
starting from state `s`. -/
def uvRun : FrameScheduler → ℕ → List (ℚ × ℚ)
  | _, 0 => []
  | s, n + 1 =>
    let r := s.next_tile_uv
    r.1 :: uvRun r.2 n

/-! ### GoldenRatioCompressor (SlizzAi-3.6.py lines 66-80)

Machine reals are modelled as exact rationals.  `PHI = (1 + 5**0.5) / 2` is
a Python double; its exact rational value is `910872158600853 / 2^49`.
`np.round` rounds half to even; `astype(np.int16)` reduces the rounded
integer modulo `2^16` into `[-32768, 32767]` (two's-complement wrap, the
behaviour of the cast on out-of-range values).  A blob is the list of its
bytes (`tobytes`, little-endian int16 cells). -/

/-- The exact rational value of the Python double `(1 + 5**0.5) / 2`. -/
def PHI : ℚ := 910872158600853 / 562949953421312

/-- Round half to even, the rounding mode of `np.round`. -/
def roundHalfEven (x : ℚ) : ℤ :=
  if x - ⌊x⌋ < 1/2 then ⌊x⌋
  else if 1/2 < x - ⌊x⌋ then ⌊x⌋ + 1
  else if Even ⌊x⌋ then ⌊x⌋ else ⌊x⌋ + 1

/-- The value `np.round(x * self.PHI * 1000.0)` as an integer. -/
def quantize (x : ℚ) : ℤ := roundHalfEven (x * PHI * 1000)

/-- The cast `.astype(np.int16)`: two's-complement reduction into `[-32768, 32767]`. -/
def wrapInt16 (q : ℤ) : ℤ := (q + 32768) % 65536 - 32768

/-- The two little-endian bytes of one int16 cell (`tobytes`). -/
def encodeCell (q : ℤ) : List ℕ :=
  let w := ((wrapInt16 q) % 65536).toNat
  [w % 256, w / 256]

/-- Method `GoldenRatioCompressor.compress`: quantize each element to int16 and
concatenate the cells' bytes. -/
def compress (data : List ℚ) : List ℕ :=
  data.flatMap (fun x => encodeCell (quantize x))

/-- Read one int16 cell from two little-endian bytes and convert it back
to a rational (`arr.astype(np.float32) / (self.PHI * 1000.0)`). -/
def decodeCell (b0 b1 : ℕ) : ℚ :=
  let w := b0 + 256 * b1
  let cell : ℤ := if w < 32768 then (w : ℤ) else (w : ℤ) - 65536
  (cell : ℚ) / (PHI * 1000)

/-- Read `count` int16 cells from the front of a byte list
(`np.frombuffer(blob, dtype=np.int16, count=length)` reads the first
`count` cells and ignores trailing bytes). -/
def readCells : ℕ → List ℕ → List ℚ
  | 0, _ => []
  | n + 1, b0 :: b1 :: rest => decodeCell b0 b1 :: readCells n rest
  | _ + 1, _ => []

/-- Method `GoldenRatioCompressor.decompress`: `np.frombuffer` raises `ValueError`
(modelled by `none`) exactly when the buffer holds fewer than
`count * itemsize = 2 * length` bytes; otherwise it reads the first
`length` cells. -/
def decompress (blob : List ℕ) (length : ℕ) : Option (List ℚ) :=
  if blob.length < 2 * length then none
  else some (readCells length blob)

/-! ### ResourceManager (SlizzAi-3.6.py lines 105-143) -/

/-- Constant `ResourceManager.TEMP_BASE = 30.0`. -/
def TEMP_BASE : ℚ := 30

/-- Constant `ResourceManager.L_PER_DEGREE = 0.00005`. -/
def L_PER_DEGREE : ℚ := 5 / 100000

/-- Ledger state of `ResourceManager`: `self.water_limit`, `self.used`. -/
structure ResourceManager where
  water_limit : ℚ
  used : ℚ
  deriving DecidableEq, Repr

/-- Constructor `ResourceManager.__init__`. -/
def ResourceManager.init (water_limit : ℚ) : ResourceManager :=
  { water_limit := water_limit, used := 0 }

/-- Method `ResourceManager.update`: the sampled temperature is the parameter;
`none` models an unavailable sensor, in which case the code assumes the
dummy reading 35.0.  Every branch performs
`self.used += max(0.0, reading - TEMP_BASE) * L_PER_DEGREE`. -/
def ResourceManager.update (m : ResourceManager) (reading : Option ℚ) :
    ResourceManager :=
  match reading with
  | some t => { m with used := m.used + max 0 (t - TEMP_BASE) * L_PER_DEGREE }
  | none => { m with used := m.used + max 0 (35 - TEMP_BASE) * L_PER_DEGREE }

/-- Method `ResourceManager.gate` raises `RuntimeError` iff `used >= water_limit`;
`true` models the raised `BudgetExceeded` condition. -/
def ResourceManager.gate (m : ResourceManager) : Bool :=
  decide (m.water_limit ≤ m.used)

/-- Fold of `update` over a list of successive sensor readings. -/
def ResourceManager.updates (m : ResourceManager) :
    List (Option ℚ) → ResourceManager
  | [] => m
  | r :: rs => (m.update r).updates rs

/-! ### run_pipeline (SlizzAi-3.6.py lines 160-199)

The loop is embedded with its external inputs as parameters: `deltas idx` is
the per-tile geometry payload (`np.random.rand(4096)` in the source) and
`readings idx` the sensor temperature sampled by `manager.update()` during
tile `idx` (`none` = sensor unavailable).  Render and super-sampling are
modelled by the two file names they write; the file system is the ordered
list of written names.  The pacing `time.sleep` has no observable effect in
the model. -/

/-- Terminal state of a pipeline run: normal completion, abort because
`manager.gate()` raised (budget exceeded), or abort because the compression
integrity `assert` failed. -/
inductive RunStatus where
  | Completed
  | AbortedBudget
  | AbortedIntegrity
  deriving DecidableEq, Repr

/-- Zero-padded index as printed by the `f"{idx:03d}"` format. -/
def pad3 (n : ℕ) : String :=
  if n < 10 then "00" ++ toString n
  else if n < 100 then "0" ++ toString n
  else toString n

/-- File name `tile_{idx:03d}.png`. -/
def tilePath (idx : ℕ) : String := "tile_" ++ pad3 idx ++ ".png"

/-- File name `final_{idx:03d}.png`. -/
def finalPath (idx : ℕ) : String := "final_" ++ pad3 idx ++ ".png"

/-- The check `np.allclose(a, b, atol=1e-3)` with numpy's default `rtol=1e-5`:
element-wise `|a - b| <= atol + rtol * |b|`, requiring equal lengths. -/
def allclose : List ℚ → List ℚ → Bool
  | [], [] => true
  | a :: as, b :: bs =>
    decide (|a - b| ≤ 1/1000 + (1/100000) * |b|) && allclose as bs
  | _, _ => false

/-- The per-tile integrity check of the loop:
`recon = decompress(compress(delta), len(delta))` followed by
`assert np.allclose(delta, recon, atol=1e-3)`. -/
def integrityOk (delta : List ℚ) : Bool :=
  match decompress (compress delta) delta.length with
  | some recon => allclose delta recon
  | none => false

/-- The tile loop of `run_pipeline`, recursing on the number of remaining
tiles.  Per iteration, in source order: pull a UV pair from the scheduler,
compress/decompress the tile's payload and assert integrity (a failed
assertion raises, aborting the run before any file of this tile is
written), write the rendered tile and the super-sampled file, then
`manager.update()` and `manager.gate()` — a raised gate aborts the run
after this tile's files are on disk. -/
def runLoop (deltas : ℕ → List ℚ) (readings : ℕ → Option ℚ) :
    ℕ → ℕ → FrameScheduler → ResourceManager → List String →
    RunStatus × List String
  | 0, _, _, _, files => (RunStatus.Completed, files)
  | rem + 1, idx, sched, mgr, files =>
    let r := sched.next_tile_uv
    let delta := deltas idx
    match decompress (compress delta) delta.length with
    | none => (RunStatus.AbortedIntegrity, files)
    | some recon =>
      if allclose delta recon then
        let files' := files ++ [tilePath idx, finalPath idx]
        let mgr' := mgr.update (readings idx)
        if mgr'.gate then (RunStatus.AbortedBudget, files')
        else runLoop deltas readings rem (idx + 1) r.2 mgr' files'
      else (RunStatus.AbortedIntegrity, files)

/-- Function `run_pipeline`: fresh scheduler (reset), fresh ledger, empty output
directory, `num_tiles` iterations. -/
def runPipeline (deltas : ℕ → List ℚ) (readings : ℕ → Option ℚ)
    (modulus : ℕ) (water_limit : ℚ) (num_tiles : ℕ) :
    RunStatus × List String :=
  runLoop deltas readings num_tiles 0
    ((FrameScheduler.init modulus).reset) (ResourceManager.init water_limit) []

/-- The ledger's `used` value after `n` further `update()` calls that start
from the value `u` and consume the readings for tiles `idx, idx+1, ...`
(the `water_limit` field of the probe ledger is irrelevant to `used`). -/
def usedFrom (readings : ℕ → Option ℚ) : ℚ → ℕ → ℕ → ℚ
  | u, _, 0 => u
  | u, idx, n + 1 =>
    usedFrom readings (((ResourceManager.mk 0 u).update (readings idx)).used)
      (idx + 1) n

/-- The ledger's `used` value after the first `n` tiles' `update()` calls of
a run. -/
def usedAfter (readings : ℕ → Option ℚ) (n : ℕ) : ℚ :=
  usedFrom readings 0 0 n

/-- The pair of files written for tiles `idx, idx+1, ..., idx+n-1`, in write
order. -/
def filesFor (idx : ℕ) : ℕ → List String
  | 0 => []
  | n + 1 => tilePath idx :: finalPath idx :: filesFor (idx + 1) n

end SlizzAi

namespace SlizzAi

/-! ### Scheduler lemmas and claims C3, C4, C5, C10 -/

theorem FrameScheduler.next_modulus (s : FrameScheduler) :
    (s.next_tile_uv).2.modulus = s.modulus := rfl

/-- A value of the form `(a % m) / m` with `m ≥ 1` lies in `[0, 1)`. -/
theorem mod_div_unit (a m : ℕ) (hm : 1 ≤ m) :
    0 ≤ ((a % m : ℕ) : ℚ) / (m : ℚ) ∧ ((a % m : ℕ) : ℚ) / (m : ℚ) < 1 := by
  have hm0 : (0 : ℚ) < (m : ℚ) := by exact_mod_cast hm
  refine ⟨by positivity, ?_⟩
  rw [div_lt_one hm0]
  exact_mod_cast Nat.mod_lt a (by omega)

/-- One `next_tile_uv` call emits a pair inside the unit square. -/
theorem next_tile_uv_mem_unit (s : FrameScheduler) (hm : 1 ≤ s.modulus) :
    0 ≤ (s.next_tile_uv).1.1 ∧ (s.next_tile_uv).1.1 < 1 ∧
    0 ≤ (s.next_tile_uv).1.2 ∧ (s.next_tile_uv).1.2 < 1 := by
  obtain ⟨h1, h2⟩ := mod_div_unit s.cur s.modulus hm
  obtain ⟨h3, h4⟩ := mod_div_unit ((s.prev + s.cur) % s.modulus) s.modulus hm
  exact ⟨h1, h2, h3, h4⟩

/-- C5: for every modulus `M ≥ 2` and every call count, both components of
every coordinate emitted by `next_tile_uv` lie in `[0, 1)`.  Stated for an
arbitrary starting state (covering the freshly reset one in particular). -/
theorem uvRun_mem_unitSquare (s : FrameScheduler) (n : ℕ) (hm : 2 ≤ s.modulus) :
    ∀ p ∈ uvRun s n, 0 ≤ p.1 ∧ p.1 < 1 ∧ 0 ≤ p.2 ∧ p.2 < 1 := by
  induction n generalizing s with
  | zero => intro p hp; simp [uvRun] at hp
  | succ n ih =>
    intro p hp
    rw [uvRun] at hp
    rcases List.mem_cons.mp hp with h | h
    · subst h; exact next_tile_uv_mem_unit s (by omega)
    · exact ih (s.next_tile_uv).2 (by rw [FrameScheduler.next_modulus]; exact hm) p h

/-- Witness for C5 at modulus 100, one call. -/
theorem uvRun_mem_unitSquare_witness :
    2 ≤ (FrameScheduler.init 100).modulus ∧
    ∀ p ∈ uvRun (FrameScheduler.init 100) 1,
      0 ≤ p.1 ∧ p.1 < 1 ∧ 0 ≤ p.2 ∧ p.2 < 1 :=
  ⟨by norm_num [FrameScheduler.init],
   uvRun_mem_unitSquare _ 1 (by norm_num [FrameScheduler.init])⟩

/-- C4: the sequence of `n` coordinates after `reset()` is a pure function of
`(modulus, n)`: two resets of generators sharing a modulus produce identical
sequences, whatever states the generators were in. -/
theorem reset_run_deterministic (s t : FrameScheduler) (n : ℕ)
    (_hm : 2 ≤ s.modulus) (hmod : s.modulus = t.modulus) :
    uvRun s.reset n = uvRun t.reset n := by
  have h : s.reset = t.reset := by simp [FrameScheduler.reset, hmod]
  rw [h]

/-- Witness for C4: a mid-run state and a fresh state, both with modulus 100,
replay the same three coordinates after reset. -/
theorem reset_run_deterministic_witness :
    2 ≤ (FrameScheduler.mk 5 7 100).modulus ∧
    (FrameScheduler.mk 5 7 100).modulus = (FrameScheduler.mk 0 1 100).modulus ∧
    uvRun (FrameScheduler.mk 5 7 100).reset 3 =
      uvRun (FrameScheduler.mk 0 1 100).reset 3 :=
  ⟨by norm_num, rfl, reset_run_deterministic _ _ 3 (by norm_num) rfl⟩

/-- C3 counterexample: with modulus 100, the first call on a fresh generator
yields `(0.01, 0.01)`, not `(0.01, 0.02)` as the claim states: the seed is
`(prev, cur) = (0, 1)`, so the updated `cur` after the first call is
`(0 + 1) % 100 = 1` and `v = 0.01`. -/
theorem first_call_counterexample :
    uvCall 100 0 = (1/100, 1/100) ∧ uvCall 100 0 ≠ (1/100, 2/100) := by
  have h : uvCall 100 0 = (1/100, 1/100) := by
    simp [uvCall, stateN, FrameScheduler.init, FrameScheduler.next_tile_uv]
  refine ⟨h, ?_⟩
  rw [h]
  intro hc
  rw [Prod.ext_iff] at hc
  have := hc.2
  norm_num at this

/-- C3 amended: with modulus 100, calls 1..5 on a fresh generator yield the
consecutive Fibonacci pairs `(1,1), (1,2), (2,3), (3,5), (5,8)` each divided
by 100 — the first call yields `u = 0.01, v = 0.01` (the claim's `v = 0.02`
is what the second call returns). -/
theorem first_five_calls :
    uvRun ((FrameScheduler.init 100).reset) 5 =
      [(1/100, 1/100), (1/100, 2/100), (2/100, 3/100),
       (3/100, 5/100), (5/100, 8/100)] := by
  simp [uvRun, FrameScheduler.init, FrameScheduler.reset,
    FrameScheduler.next_tile_uv]

/-- C10: the `u` component of call `k+2` equals the `v` component of call
`k+1`: consecutive emitted coordinates share a component, since `v` is
computed from the already-updated `cur` that the next call reads back. -/
theorem consecutive_calls_share (m k : ℕ) (_hm : 2 ≤ m) :
    (uvCall m (k + 1)).1 = (uvCall m k).2 := rfl

/-- Witness for C10 at modulus 100, first pair of calls. -/
theorem consecutive_calls_share_witness :
    2 ≤ 100 ∧ (uvCall 100 1).1 = (uvCall 100 0).2 :=
  ⟨by norm_num, consecutive_calls_share 100 0 (by norm_num)⟩

/-! ### Codec lemmas and claims C1, C2, C6 -/

/-- Round half to even differs from its argument by at most one half. -/
theorem abs_sub_roundHalfEven (x : ℚ) :
    |x - (roundHalfEven x : ℚ)| ≤ 1/2 := by
  have h0 : (⌊x⌋ : ℚ) ≤ x := Int.floor_le x
  have h1 : x < ⌊x⌋ + 1 := Int.lt_floor_add_one x
  rw [roundHalfEven]
  split_ifs with hlt hgt hev
  · rw [abs_of_nonneg (by linarith)]; linarith
  · rw [abs_of_nonpos (by push_cast; linarith)]; push_cast; linarith
  · rw [abs_of_nonneg (by linarith)]; linarith
  · rw [abs_of_nonpos (by push_cast; linarith)]; push_cast; linarith

/-- Within the claim's representable domain the quantized value fits into a
signed 16-bit cell. -/
theorem quantize_mem_int16 (x : ℚ) (h : |x * PHI * 1000| ≤ 32767) :
    -32768 ≤ quantize x ∧ quantize x ≤ 32767 := by
  have hr := abs_sub_roundHalfEven (x * PHI * 1000)
  rw [abs_le] at h hr
  have hub : ((quantize x : ℤ) : ℚ) < 32768 := by
    rw [quantize]; linarith [hr.1, h.2]
  have hlb : (-32768 : ℚ) < ((quantize x : ℤ) : ℚ) := by
    rw [quantize]; linarith [hr.2, h.1]
  constructor
  · exact_mod_cast le_of_lt hlb
  · have : (quantize x : ℤ) < 32768 := by exact_mod_cast hub
    omega

/-- The two's-complement wrap is the identity on in-range values. -/
theorem wrapInt16_eq_self (q : ℤ) (h1 : -32768 ≤ q) (h2 : q ≤ 32767) :
    wrapInt16 q = q := by
  rw [wrapInt16]; omega

/-- Decoding the two bytes produced for an in-range cell recovers the cell
divided by the scale. -/
theorem decodeCell_encodeCell (q : ℤ) (h1 : -32768 ≤ q) (h2 : q ≤ 32767) :
    decodeCell ((wrapInt16 q % 65536).toNat % 256)
      ((wrapInt16 q % 65536).toNat / 256) = (q : ℚ) / (PHI * 1000) := by
  rw [wrapInt16_eq_self q h1 h2]
  have hnn : 0 ≤ q % 65536 := Int.emod_nonneg q (by norm_num)
  have hw : (((q % 65536).toNat : ℕ) : ℤ) = q % 65536 := Int.toNat_of_nonneg hnn
  simp only [decodeCell, Nat.mod_add_div]
  have hcell : (if (q % 65536).toNat < 32768 then (((q % 65536).toNat : ℕ) : ℤ)
      else (((q % 65536).toNat : ℕ) : ℤ) - 65536) = q := by
    split_ifs with hc
    · omega
    · omega
  rw [hcell]

/-- Unfolding `compress` on a cons: the element's cell followed by the rest. -/
theorem compress_cons (x : ℚ) (xs : List ℚ) :
    compress (x :: xs) = encodeCell (quantize x) ++ compress xs := by
  simp [compress]

/-- A compressed blob holds exactly two bytes per source element. -/
theorem compress_length (d : List ℚ) : (compress d).length = 2 * d.length := by
  induction d with
  | nil => rfl
  | cons x xs ih =>
    rw [compress_cons, List.length_append, ih]
    simp [encodeCell]
    omega

/-- Quantization error of one element, in the decoded unit. -/
theorem roundtrip_elem (x : ℚ) :
    |x - (quantize x : ℚ) / (PHI * 1000)| ≤ (1/2) / (PHI * 1000) := by
  have hs : (0 : ℚ) < PHI * 1000 := by norm_num [PHI]
  have hr : |x * PHI * 1000 - (quantize x : ℚ)| ≤ 1/2 := by
    rw [quantize]; exact abs_sub_roundHalfEven (x * PHI * 1000)
  have heq : x - (quantize x : ℚ) / (PHI * 1000)
      = (x * PHI * 1000 - (quantize x : ℚ)) / (PHI * 1000) := by
    field_simp
    ring
  rw [heq, abs_div, abs_of_pos hs]
  gcongr

/-- Element-wise round-trip bound for the cells read back from a compressed
in-range payload. -/
theorem readCells_compress_roundtrip (d : List ℚ)
    (h : ∀ x ∈ d, |x * PHI * 1000| ≤ 32767) :
    List.Forall₂ (fun x y => |x - y| ≤ (1/2) / (PHI * 1000)) d
      (readCells d.length (compress d)) := by
  induction d with
  | nil => simp [readCells]
  | cons x xs ih =>
    have hx := h x (List.mem_cons_self x xs)
    have hq := quantize_mem_int16 x hx
    rw [compress_cons, List.length_cons]
    simp only [encodeCell, List.cons_append, readCells]
    refine List.Forall₂.cons ?_ (ih fun y hy => h y (List.mem_cons_of_mem x hy))
    rw [decodeCell_encodeCell (quantize x) hq.1 hq.2]
    exact roundtrip_elem x

/-- C2: every payload whose elements all satisfy `|x * PHI * 1000| ≤ 32767`
round-trips through `compress`/`decompress` with per-element absolute error
at most `0.5 / (PHI * 1000)`. -/
theorem compress_decompress_roundtrip (d : List ℚ)
    (h : ∀ x ∈ d, |x * PHI * 1000| ≤ 32767) :
    ∃ r, decompress (compress d) d.length = some r ∧
      List.Forall₂ (fun x y => |x - y| ≤ (1/2) / (PHI * 1000)) d r := by
  refine ⟨readCells d.length (compress d), ?_,
    readCells_compress_roundtrip d h⟩
  rw [decompress, if_neg]
  rw [compress_length]
  omega

/-- Witness for C2: the spec's 4-element scenario payload
`[0.1, -0.2, 0.05, 0.0]` is in range and round-trips within the bound. -/
theorem compress_decompress_roundtrip_witness :
    (∀ x ∈ [(1:ℚ)/10, -1/5, 1/20, 0], |x * PHI * 1000| ≤ 32767) ∧
    ∃ r, decompress (compress [(1:ℚ)/10, -1/5, 1/20, 0]) 4 = some r ∧
      List.Forall₂ (fun x y => |x - y| ≤ (1/2) / (PHI * 1000))
        [(1:ℚ)/10, -1/5, 1/20, 0] r := by
  have hdom : ∀ x ∈ [(1:ℚ)/10, -1/5, 1/20, 0], |x * PHI * 1000| ≤ 32767 := by
    intro x hx
    rw [abs_le]
    fin_cases hx <;> constructor <;> norm_num [PHI]
  exact ⟨hdom, compress_decompress_roundtrip [(1:ℚ)/10, -1/5, 1/20, 0] hdom⟩

/-- C6 counterexample: a 4-byte blob decoded with declared length 1 is
accepted by `decompress` (returning the first cell) even though
`len(blob) = 4 ≠ 2 = 2 * length`: `np.frombuffer` only requires the buffer
to hold at least `count` cells. -/
theorem decompress_long_blob_counterexample :
    decompress [0, 0, 0, 0] 1 = some [0] ∧
      ([0, 0, 0, 0] : List ℕ).length ≠ 2 * 1 := by
  constructor
  · rw [decompress, if_neg (by simp)]
    simp [readCells, decodeCell]
  · simp

/-- C6 amended: `decompress` fails with the length error iff the blob holds
fewer than `2 * length` bytes; with at least that many bytes it succeeds,
reading the first `length` cells and ignoring any trailing bytes. -/
theorem decompress_none_iff (blob : List ℕ) (length : ℕ) :
    decompress blob length = none ↔ blob.length < 2 * length := by
  rw [decompress]
  split_ifs with h <;> simp [h]

/-- Evaluating `quantize` at the out-of-range input 30 yields 48541, outside int16. -/
theorem quantize_thirty : quantize 30 = 48541 := by
  have hf : ⌊(30 : ℚ) * PHI * 1000⌋ = 48541 := by
    rw [Int.floor_eq_iff]
    norm_num [PHI]
  rw [quantize, roundHalfEven, hf, if_pos]
  push_cast
  norm_num [PHI]

/-- C1 (code bug): on input `[30.0]` (whose scaled magnitude exceeds 32767)
`compress` does not fail: it silently produces the two-byte blob `[157, 189]`
holding the wrapped int16 cell `-16995`, which decodes to a negative value
nowhere near 30 — the quantization-step error bound is violated. -/
theorem compress_overflow_wraps_silently :
    compress [(30 : ℚ)] = [157, 189] ∧
    decompress (compress [(30 : ℚ)]) 1 = some [(-16995 : ℚ) / (PHI * 1000)] ∧
    ¬ |(30 : ℚ) - (-16995 : ℚ) / (PHI * 1000)| ≤ (1/2) / (PHI * 1000) := by
  have hc : compress [(30 : ℚ)] = [157, 189] := by
    rw [show compress [(30 : ℚ)] = encodeCell (quantize 30) ++ [] from rfl,
      quantize_thirty]
    decide
  refine ⟨hc, ?_, ?_⟩
  · rw [hc, decompress, if_neg (by simp)]
    have hd : decodeCell 157 189 = (-16995 : ℚ) / (PHI * 1000) := by
      simp only [decodeCell]
      norm_num
    rw [show readCells 1 [157, 189] = [decodeCell 157 189] from rfl, hd]
  · rw [abs_of_nonneg (by norm_num [PHI])]
    norm_num [PHI]

/-! ### ResourceManager lemmas and claims C7, C8 -/

/-- Every branch of `update` adds a non-negative amount to `used`. -/
theorem ResourceManager.used_le_update (m : ResourceManager) (r : Option ℚ) :
    m.used ≤ (m.update r).used := by
  cases r with
  | none =>
    have h : (0 : ℚ) ≤ max 0 (35 - TEMP_BASE) * L_PER_DEGREE :=
      mul_nonneg (le_max_left 0 _) (by norm_num [L_PER_DEGREE])
    simp only [ResourceManager.update]
    linarith
  | some t =>
    have h : (0 : ℚ) ≤ max 0 (t - TEMP_BASE) * L_PER_DEGREE :=
      mul_nonneg (le_max_left 0 _) (by norm_num [L_PER_DEGREE])
    simp only [ResourceManager.update]
    linarith

/-- Calling `update` never touches the limit. -/
theorem ResourceManager.update_water_limit (m : ResourceManager)
    (r : Option ℚ) : (m.update r).water_limit = m.water_limit := by
  cases r <;> rfl

/-- C7: for every ledger state and every `update()` call — with any
non-negative sensor reading, or with the sensor unavailable (`none`), which
triggers the constant 35 degree fallback — `used` does not decrease. -/
theorem update_monotone (m : ResourceManager) (r : Option ℚ)
    (_h : ∀ t, r = some t → 0 ≤ t) : m.used ≤ (m.update r).used :=
  ResourceManager.used_le_update m r

/-- Witness for C7: a fresh ledger with limit 0.001 and the reading 35. -/
theorem update_monotone_witness :
    (∀ t : ℚ, some (35 : ℚ) = some t → 0 ≤ t) ∧
    (ResourceManager.mk (1/1000) 0).used ≤
      ((ResourceManager.mk (1/1000) 0).update (some 35)).used := by
  have h : ∀ t : ℚ, some (35 : ℚ) = some t → 0 ≤ t := by
    intro t ht
    injection ht with ht
    rw [← ht]
    norm_num
  exact ⟨h, update_monotone _ _ h⟩

/-- C8: once `gate()` reports the budget exceeded, it keeps reporting it
after any further sequence of `update()` calls on the same ledger: `used`
only grows and the limit is fixed, so the condition is never reset. -/
theorem gate_hard_stop (m : ResourceManager) (rs : List (Option ℚ))
    (h : m.gate = true) : (m.updates rs).gate = true := by
  induction rs generalizing m with
  | nil => exact h
  | cons r rs ih =>
    rw [ResourceManager.updates]
    apply ih
    rw [ResourceManager.gate, decide_eq_true_eq] at h ⊢
    rw [ResourceManager.update_water_limit]
    exact le_trans h (ResourceManager.used_le_update m r)

/-- Witness for C8: a ledger already at its limit stays exceeded across an
unavailable-sensor update and a hot reading. -/
theorem gate_hard_stop_witness :
    (ResourceManager.mk (1/1000) (1/1000)).gate = true ∧
    ((ResourceManager.mk (1/1000) (1/1000)).updates [none, some 40]).gate
      = true :=
  ⟨by simp [ResourceManager.gate],
   gate_hard_stop _ [none, some 40] (by simp [ResourceManager.gate])⟩

/-! ### Pipeline lemmas and claim C9 -/

/-- Updating a ledger only rewrites `used`, by an amount independent of the
stored limit. -/
theorem mk_update (w u : ℚ) (r : Option ℚ) :
    (ResourceManager.mk w u).update r
      = ResourceManager.mk w (((ResourceManager.mk 0 u).update r).used) := by
  cases r <;> rfl

/-- One step of `usedFrom`. -/
theorem usedFrom_succ (readings : ℕ → Option ℚ) (u : ℚ) (idx n : ℕ) :
    usedFrom readings u idx (n + 1)
      = usedFrom readings (((ResourceManager.mk 0 u).update (readings idx)).used)
          (idx + 1) n := by
  rw [usedFrom]

/-- The generalized abort lemma for the tile loop: if tiles
`idx .. idx + k` pass the integrity assertion, the ledger stays below the
limit after each of the first `k` of their updates, and reaches the limit
after the `(k+1)`-th, then the loop ends `AbortedBudget` having written
exactly the file pairs of those `k + 1` tiles after the ones already on
disk. -/
theorem runLoop_abort (deltas : ℕ → List ℚ) (readings : ℕ → Option ℚ)
    (limit : ℚ) :
    ∀ (k rem idx : ℕ) (sched : FrameScheduler) (u : ℚ) (files : List String),
    k < rem →
    (∀ j, j ≤ k → integrityOk (deltas (idx + j)) = true) →
    (∀ j, j < k → usedFrom readings u idx (j + 1) < limit) →
    limit ≤ usedFrom readings u idx (k + 1) →
    runLoop deltas readings rem idx sched (ResourceManager.mk limit u) files
      = (RunStatus.AbortedBudget, files ++ filesFor idx (k + 1)) := by
  intro k
  induction k with
  | zero =>
    intro rem idx sched u files hrem hint hbelow hex
    match rem, hrem with
    | rem + 1, _ =>
      have h0 := hint 0 (le_refl 0)
      rw [Nat.add_zero] at h0
      simp only [runLoop]
      cases hdec : decompress (compress (deltas idx)) (deltas idx).length with
      | none => simp [integrityOk, hdec] at h0
      | some recon =>
        have hall : allclose (deltas idx) recon = true := by
          simpa [integrityOk, hdec] using h0
        rw [usedFrom_succ] at hex
        rw [usedFrom] at hex
        simp only [hall, if_true, mk_update limit u]
        rw [if_pos (by rw [ResourceManager.gate, decide_eq_true_eq]; exact hex)]
        rfl
  | succ k ih =>
    intro rem idx sched u files hrem hint hbelow hex
    match rem, hrem with
    | rem + 1, hrem =>
      have h0 := hint 0 (Nat.zero_le _)
      rw [Nat.add_zero] at h0
      simp only [runLoop]
      cases hdec : decompress (compress (deltas idx)) (deltas idx).length with
      | none => simp [integrityOk, hdec] at h0
      | some recon =>
        have hall : allclose (deltas idx) recon = true := by
          simpa [integrityOk, hdec] using h0
        have hb0 := hbelow 0 (Nat.succ_pos k)
        rw [usedFrom_succ] at hb0
        rw [usedFrom] at hb0
        simp only [hall, if_true, mk_update limit u]
        rw [if_neg (by rw [ResourceManager.gate, decide_eq_true_eq]; exact not_le.mpr hb0)]
        rw [show files ++ filesFor idx (k + 1 + 1)
            = (files ++ [tilePath idx, finalPath idx]) ++ filesFor (idx + 1) (k + 1) by
          rw [filesFor]; simp]
        apply ih rem (idx + 1) _ _ _ (by omega)
        · intro j hj
          have := hint (j + 1) (by omega)
          rwa [show idx + (j + 1) = idx + 1 + j from by omega] at this
        · intro j hj
          have := hbelow (j + 1) (by omega)
          rwa [usedFrom_succ] at this
        · have := hex
          rwa [usedFrom_succ readings u idx (k + 1)] at this

/-- C9: in every run in which tiles `0..k` pass the integrity check, the
ledger first reaches the water limit at tile `k`'s update, and `k` is within
the tile count, the pipeline ends `AbortedBudget` with exactly the file
pairs of tiles `0..k` written, in order — no later tile's work is started
and the completed outputs are preserved. -/
theorem pipeline_budget_abort (deltas : ℕ → List ℚ)
    (readings : ℕ → Option ℚ) (modulus : ℕ) (limit : ℚ) (num_tiles k : ℕ)
    (hk : k < num_tiles)
    (hint : ∀ j, j ≤ k → integrityOk (deltas j) = true)
    (hbelow : ∀ j, j < k → usedAfter readings (j + 1) < limit)
    (hex : limit ≤ usedAfter readings (k + 1)) :
    runPipeline deltas readings modulus limit num_tiles
      = (RunStatus.AbortedBudget, filesFor 0 (k + 1)) := by
  rw [runPipeline]
  have h := runLoop_abort deltas readings limit k num_tiles 0
    ((FrameScheduler.init modulus).reset) 0 [] hk
    (by intro j hj; simpa using hint j hj) hbelow hex
  simpa using h

/-- Witness for C9: the spec's scenario shape — 3 tiles, an all-zero
payload per tile, the sensor unavailable (constant fallback reading 35), and
a limit of 0.0002 L that the very first 0.00025 L update already exceeds:
the run aborts with exactly one tile pair written. -/
theorem pipeline_budget_abort_witness :
    0 < 3 ∧
    (∀ j, j ≤ 0 → integrityOk ((fun _ => [(0:ℚ), 0, 0, 0]) j) = true) ∧
    (∀ j : ℕ, j < 0 →
      usedAfter (fun _ => none) (j + 1) < (1/5000 : ℚ)) ∧
    ((1/5000 : ℚ) ≤ usedAfter (fun _ => none) 1) ∧
    runPipeline (fun _ => [(0:ℚ), 0, 0, 0]) (fun _ => none) 100 (1/5000) 3
      = (RunStatus.AbortedBudget, filesFor 0 1) := by
  have hq : quantize 0 = 0 := by
    have hf : ⌊(0 : ℚ) * PHI * 1000⌋ = 0 := by norm_num
    rw [quantize, roundHalfEven, hf]
    norm_num
  have hint : ∀ j, j ≤ 0 → integrityOk ((fun _ => [(0:ℚ), 0, 0, 0]) j) = true := by
    intro j _
    show integrityOk [(0:ℚ), 0, 0, 0] = true
    have hc : compress [(0:ℚ), 0, 0, 0] = [0, 0, 0, 0, 0, 0, 0, 0] := by
      rw [show compress [(0:ℚ), 0, 0, 0]
          = encodeCell (quantize 0) ++ (encodeCell (quantize 0)
            ++ (encodeCell (quantize 0) ++ (encodeCell (quantize 0) ++ [])))
          from rfl, hq]
      decide
    rw [integrityOk, hc]
    rw [show decompress [0, 0, 0, 0, 0, 0, 0, 0] ([(0:ℚ), 0, 0, 0].length)
        = some (readCells 4 [0, 0, 0, 0, 0, 0, 0, 0]) from by
      rw [decompress, if_neg (by simp)]
      rfl]
    have hz : decodeCell 0 0 = 0 := by
      simp [decodeCell]
    rw [show readCells 4 [0, 0, 0, 0, 0, 0, 0, 0]
        = [decodeCell 0 0, decodeCell 0 0, decodeCell 0 0, decodeCell 0 0]
        from rfl, hz]
    simp [allclose]
  have hex : (1/5000 : ℚ) ≤ usedAfter (fun _ => none) 1 := by
    rw [usedAfter, usedFrom_succ, usedFrom]
    simp [ResourceManager.update, TEMP_BASE, L_PER_DEGREE]
    norm_num
  exact ⟨by norm_num, hint, by intro j hj; omega, hex,
    pipeline_budget_abort (fun _ => [(0:ℚ), 0, 0, 0]) (fun _ => none) 100
      (1/5000) 3 0 (by norm_num) hint (by intro j hj; omega) hex⟩

end SlizzAi
